import Mathlib

/-!
A shallow embedding of the mass string replacement program:
src/Mass_String_Replacement.py (class FastReplacer with its Tk front end)
and src/main.py (class ArticleReplacer).

Texts are modelled as `List Char`.  A spreadsheet cell that pandas reads
with `dtype=str` is `Option (List Char)`: `none` models a missing value
(NaN) or, for `sanitize_text`, a Python value that is not a string.
Excel input and output, logging and the GUI carry no algorithmic content
and are modelled by pure data flow; the process pool `executor.map`
returns chunk results in submission order, which is what the chunk model
below captures.  All concrete texts in this development are ASCII, and
the Unicode pieces of the source (NFKC normalization, `str.isprintable`,
the regex word class) are modelled on their exact ASCII behaviour.
-/

namespace MassReplace

/-- The character class of Python `str.strip()` (default whitespace),
restricted to the ASCII whitespace exercised here. -/
def isSpaceChar (c : Char) : Bool := c.isWhitespace

/-- Python `str.strip()`: remove leading and trailing whitespace. -/
def pyStrip (t : List Char) : List Char :=
  ((t.dropWhile isSpaceChar).reverse.dropWhile isSpaceChar).reverse

/-- `unicodedata.normalize("NFKC", text)` of line 57, modelled as the
identity map: NFKC fixes every ASCII character, and every text in this
development is ASCII. -/
def nfkc (t : List Char) : List Char := t

/-- Python `str.isprintable` per character, ASCII model: the printable
ASCII range 0x20 to 0x7E.  As in Python, the zero width space and the
byte order mark are not printable. -/
def isPrintableChar (c : Char) : Bool := 0x20 ≤ c.toNat && c.toNat ≤ 0x7E

/-- `FastReplacer.sanitize_text` (lines 52 to 63).  `none` models an
input that is not a string.  The `except` fallback of lines 61 to 63
cannot fire in the pure model, so it has no branch here. -/
def sanitize_text : Option (List Char) → List Char
  | none => []
  | some text =>
      if (pyStrip text).isEmpty then []
      else
        pyStrip (((nfkc text).filter isPrintableChar).filter
          (fun c => c != '\u200b' && c != '\ufeff'))

/-- The characters that `re.escape` prefixes with a backslash
(CPython special characters map, Python 3.7 and later). -/
def reSpecials : List Char :=
  ['(', ')', '[', ']', '\x7b', '\x7d', '?', '*', '+', '-', '|', '^', '$',
   '\\', '.', '&', '~', '#', ' ', '\t', '\n', '\r', '\x0b', '\x0c']

/-- `re.escape(key)` of line 45. -/
def reEscape (t : List Char) : List Char :=
  t.flatMap (fun c => if c ∈ reSpecials then ['\\', c] else [c])

/-- How the regex engine reads a pattern produced by `re.escape`: a
backslash makes the character after it literal, every other character
stands for itself.  The result is the literal text the pattern matches.
A dangling final backslash would be an invalid pattern; `re.escape`
never produces one, and the model reads it as nothing. -/
def regexUnescape : List Char → List Char
  | [] => []
  | c :: rest =>
      if c = '\\' then
        match rest with
        | [] => []
        | d :: rest2 => d :: regexUnescape rest2
      else c :: regexUnescape rest

/-- A regex word character for the word boundary assertion: ASCII
letters, digits and the underscore. -/
def isWordChar (c : Char) : Bool := c.isAlphanum || c == '_'

/-- Word classification of an optional character; the edge of the text
counts as not a word character. -/
def wordOpt : Option Char → Bool
  | none => false
  | some c => isWordChar c

/-- Case insensitive literal match of `key` against a prefix of the
text, the ASCII content of `re.IGNORECASE`. -/
def ciMatch : List Char → List Char → Bool
  | [], _ => true
  | _ :: _, [] => false
  | k :: ks, c :: cs => (k.toLower == c.toLower) && ciMatch ks cs

/-- Does the word bounded pattern of line 75 match the literal `key` at
the current position?  `prev` is the character just before the position
(`none` at the start of the text), `t` is the rest of the text. -/
def matchesHere (key : List Char) (prev : Option Char) (t : List Char) : Bool :=
  ciMatch key t &&
  (wordOpt prev != wordOpt t.head?) &&
  (wordOpt (t.take key.length).getLast? != wordOpt (t.drop key.length).head?)

/-- The scan of `re.sub` (line 76) with the word bounded, case
insensitive pattern: leftmost non overlapping matches in the original
text, each replaced by `rep`, scanning resuming after the matched
characters.  `fuel` bounds the recursion; `re_sub` passes the length of
the text, which suffices because every step consumes at least one
character of the text. -/
def subAux (key rep : List Char) : Nat → Option Char → List Char → List Char
  | _, _, [] => []
  | 0, _, t => t
  | fuel + 1, prev, c :: rest =>
      if !key.isEmpty && matchesHere key prev (c :: rest) then
        rep ++ subAux key rep fuel ((c :: rest).take key.length).getLast?
          ((c :: rest).drop key.length)
      else
        c :: subAux key rep fuel (some c) rest

/-- `re.sub(pattern, rep, text, flags=re.IGNORECASE)` for the pattern
of line 75, where `key` is already the literal text of the pattern. -/
def re_sub (key rep text : List Char) : List Char :=
  subAux key rep text.length none text

/-- A spreadsheet as read by pandas with `dtype=str`: named columns of
optional string cells. -/
structure Sheet where
  cols : List (List Char × List (Option (List Char)))

/-- Python substring containment, `needle in hay`. -/
def containsSub (needle hay : List Char) : Bool :=
  hay.tails.any (fun t => needle.isPrefixOf t)

/-- Line 32: the columns whose header contains `Replace From`. -/
def fromColsOf (s : Sheet) : List (List Char × List (Option (List Char))) :=
  s.cols.filter (fun c => containsSub ("Replace From".data) c.1)

/-- Line 33: the columns whose header contains `Replace To`. -/
def toColsOf (s : Sheet) : List (List Char × List (Option (List Char))) :=
  s.cols.filter (fun c => containsSub ("Replace To".data) c.1)

/-- One row of one From/To pair in `FastReplacer.load_replacements`
(lines 40 to 45): `dropna` keeps the row only when both cells are
present, the truthiness test keeps it only when both are non empty, and
the stored key is `re.escape` of the raw cell. -/
def ruleOfRow (fromCell toCell : Option (List Char)) :
    Option (List Char × List Char) :=
  match fromCell, toCell with
  | some key, some v =>
      if key.isEmpty || v.isEmpty then none else some (reEscape key, v)
  | _, _ => none

/-- Stable insertion of a rule into a list already sorted by key length,
descending: the new rule goes after every rule whose key is strictly
longer and before the first rule whose key is not. -/
def insertByLenDesc (x : List Char × List Char) :
    List (List Char × List Char) → List (List Char × List Char)
  | [] => [x]
  | y :: ys =>
      if y.1.length ≤ x.1.length then x :: y :: ys
      else y :: insertByLenDesc x ys

/-- The stable sort of line 48,
`replacements.sort(key=lambda x: len(x[0]), reverse=True)`, as a stable
insertion sort; a stable sort is extensionally unique, so this equals
the stable Python sort. -/
def sortByKeyLenDesc (l : List (List Char × List Char)) :
    List (List Char × List Char) :=
  l.foldr insertByLenDesc []

/-- `FastReplacer.load_replacements` (lines 24 to 50), file reading
aside.  The boolean records whether a configuration error was reported:
when no `Replace From` or no `Replace To` column exists, the method logs
an error and returns with zero rules loaded (lines 35 to 37).
Otherwise the pairs of From and To columns are walked in order, each
contributing row appends one rule, and the whole list is sorted by key
length, longest first. -/
def load_replacements (s : Sheet) : Bool × List (List Char × List Char) :=
  if (fromColsOf s).isEmpty || (toColsOf s).isEmpty then (true, [])
  else
    (false, sortByKeyLenDesc
      (((fromColsOf s).zip (toColsOf s)).foldl
        (fun acc p =>
          acc ++ (p.1.2.zip p.2.2).filterMap
            (fun cells => ruleOfRow cells.1 cells.2))
        []))

/-- The row count of a sheet (every pandas column has the same length). -/
def nRows (s : Sheet) : Nat :=
  match s.cols with
  | [] => 0
  | c :: _ => c.2.length

/-- The cell of a column at a row index, `none` past the end. -/
def cellAt (col : List (Option (List Char))) (i : Nat) : Option (List Char) :=
  (col.get? i).getD none

/-- One row of one pair in `ArticleReplacer.prepare_replacements`
(src/main.py lines 36 to 45): both cells present, both non empty after
`strip`; the source appends the stripped pair in the swapped order
`(to_value, from_value)`. -/
def ruleOfRowStripped (fromCell toCell : Option (List Char)) :
    Option (List Char × List Char) :=
  match fromCell, toCell with
  | some f0, some t0 =>
      let f := pyStrip f0
      let t := pyStrip t0
      if f.isEmpty || t.isEmpty then none else some (t, f)
  | _, _ => none

/-- `ArticleReplacer.prepare_replacements` (src/main.py lines 25 to 47):
pair the From and To columns in order of appearance, drop the rows whose
From and To cells are all missing, then collect the surviving rows of
each pair through `ruleOfRowStripped`.  No escaping and no sorting
happen in this variant. -/
def prepare_replacements (s : Sheet) : List (List Char × List Char) :=
  let pairs := (fromColsOf s).zip (toColsOf s)
  let subset := ((fromColsOf s) ++ (toColsOf s)).map Prod.snd
  let kept := (List.range (nRows s)).filter
    (fun i => subset.any (fun col => (cellAt col i).isSome))
  pairs.foldl
    (fun acc p =>
      acc ++ kept.filterMap
        (fun i => ruleOfRowStripped (cellAt p.1.2 i) (cellAt p.2.2 i)))
    []

/-- `FastReplacer.replace_text` (lines 65 to 78) without the progress
logging arguments `index` and `total`, which do not influence the
result: blank or non string input returns empty at once, otherwise the
sanitized text is run through one `re.sub` per stored rule, in table
order.  Each stored key is an `re.escape` pattern, which the regex
engine matches as the literal text `regexUnescape` recovers from it. -/
def replace_text (replacements : List (List Char × List Char))
    (text : List Char) : List Char :=
  if (pyStrip text).isEmpty then []
  else
    replacements.foldl (fun acc kv => re_sub (regexUnescape kv.1) kv.2 acc)
      (sanitize_text (some text))

/-- `FastReplacer.process_chunk` (lines 80 to 81); the start index and
total only feed the progress log inside `replace_text`. -/
def process_chunk (replacements : List (List Char × List Char))
    (chunk : List (List Char)) : List (List Char) :=
  chunk.map (replace_text replacements)

/-- The slice list `[l[i:i+size] for i in range(0, len(l), size)]`,
used by the chunking of line 106 and by `split_long_text` (line 84). -/
def slicesBy (size : Nat) (l : List α) : List (List α) :=
  (List.range ((l.length + size - 1) / size)).map
    (fun k => (l.drop (k * size)).take size)

/-- The chunk size rule of line 102. -/
def chunk_size (n : Nat) : Nat := max 1000 (n / 4)

/-- The chunk list submitted to the pool at line 106. -/
def article_chunks (articles : List (List Char)) : List (List (List Char)) :=
  slicesBy (chunk_size articles.length) articles

/-- Lines 104 to 110: the pool maps `process_chunk` over the chunks (the
start indices and the totals of lines 107 to 108 only feed logging, and
the totals list is never shorter than the chunk list, so it never
truncates `executor.map`), and the per chunk results are concatenated in
chunk submission order. -/
def run_chunks (replacements : List (List Char × List Char))
    (articles : List (List Char)) : List (List Char) :=
  ((article_chunks articles).map (process_chunk replacements)).flatten

/-- Line 14, the Excel cell character limit. -/
def MAX_CELL_LENGTH : Nat := 32767

/-- `FastReplacer.split_long_text` (lines 83 to 84). -/
def split_long_text (text : List Char) : List (List Char) :=
  slicesBy MAX_CELL_LENGTH text

/-- `max(len(parts) for parts in split_data)` of line 114 over the
fragment lists; the fold from 0 equals the Python maximum whenever the
list is non empty (Python `max` raises on an empty one, and the caller
model returns `none` there). -/
def max_fragment_count (arts : List (List Char)) : Nat :=
  ((arts.map split_long_text).map List.length).foldl max 0

/-- Lines 113 to 116: the fragment rows, the column names
`Article Part 1` to `Article Part K`, and the `pd.DataFrame` padding of
rows shorter than K with missing values on the right. -/
def output_table (arts : List (List Char)) :
    Option (List (List Char) × List (List (Option (List Char)))) :=
  match arts with
  | [] => none
  | _ :: _ =>
      some ((List.range (max_fragment_count arts)).map
          (fun i => "Article Part ".data ++ (Nat.repr (i + 1)).data),
        arts.map (fun a =>
          (split_long_text a).map some ++
            List.replicate (max_fragment_count arts - (split_long_text a).length)
              none))

/-- `FastReplacer.process_articles` (lines 86 to 123) on an already
extracted article column: chunked replacement, then the output table.
`none` models the runs that write no output file: an empty article list
makes the code either return early at line 96 or raise at line 114. -/
def process_articles (replacements : List (List Char × List Char))
    (articles : List (List Char)) :
    Option (List (List Char) × List (List (Option (List Char)))) :=
  output_table (run_chunks replacements articles)

/-- `App.start_replacer` (lines 154 to 164): builds the replacer, which
loads the replacement table, then calls `process_articles`
unconditionally, whether or not loading reported a configuration
error. -/
def start_replacer (s : Sheet) (articles : List (List Char)) :
    Option (List (List Char) × List (List (Option (List Char)))) :=
  process_articles (load_replacements s).2 articles

/-- The replacement sheet of the `cat`/`category` example: one From/To
pair, rows `cat to dog` and `category to group`. -/
def sheetCatCategory : Sheet :=
  ⟨[("Replace From".data, [some "cat".data, some "category".data]),
    ("Replace To".data, [some "dog".data, some "group".data])]⟩

/-- The replacement sheet of the whole word example: the single rule
`cat to dog`. -/
def sheetCatDog : Sheet :=
  ⟨[("Replace From".data, [some "cat".data]),
    ("Replace To".data, [some "dog".data])]⟩

/-- A replacement sheet with a `Replace From` column and no
`Replace To` column. -/
def sheetFromOnly : Sheet :=
  ⟨[("Replace From".data, [some "cat".data])]⟩

/-- A replacement sheet whose single row has a whitespace only From
cell: present and truthy, but empty after trimming. -/
def sheetWhitespaceKey : Sheet :=
  ⟨[("Replace From".data, [some "  ".data]),
    ("Replace To".data, [some "x".data])]⟩

/-- A replacement sheet with one contributing row and one row whose
From cell is missing. -/
def sheetSkipRow : Sheet :=
  ⟨[("Replace From".data, [some "a".data, none]),
    ("Replace To".data, [some "b".data, some "c".data])]⟩

/-- A replacement sheet whose single key holds a regex metacharacter. -/
def sheetDotKey : Sheet :=
  ⟨[("Replace From".data, [some "c.t".data]),
    ("Replace To".data, [some "X".data])]⟩

/-- A replacement sheet whose first key is shorter than the second as
raw text but longer once escaped. -/
def sheetEscLen : Sheet :=
  ⟨[("Replace From".data, [some "a..".data, some "abcd".data]),
    ("Replace To".data, [some "P".data, some "Q".data])]⟩

end MassReplace

namespace MassReplace

theorem slicesBy_nil {α : Type _} (s : Nat) : slicesBy s ([] : List α) = [] := by
  have h : ((([] : List α)).length + s - 1) / s = 0 := by
    simp only [List.length_nil, Nat.zero_add]
    cases s with
    | zero => simp
    | succ n => exact Nat.div_eq_of_lt (by omega)
  unfold slicesBy
  rw [h]
  rfl

theorem slicesBy_cons {α : Type _} {s : Nat} (hs : 0 < s) (l : List α)
    (hl : l ≠ []) : slicesBy s l = l.take s :: slicesBy s (l.drop s) := by
  have hlen : 1 ≤ l.length := List.length_pos.mpr hl
  have hceil : (l.length + s - 1) / s = (l.length - 1) / s + 1 := by
    have he : l.length + s - 1 = (l.length - 1) + s := by omega
    rw [he, Nat.add_div_right _ hs]
  have hceil2 : ((l.drop s).length + s - 1) / s = (l.length - 1) / s := by
    rw [List.length_drop]
    rcases le_or_lt l.length s with h | h
    · have h1 : l.length - s = 0 := by omega
      rw [h1, Nat.div_eq_of_lt (by omega), Nat.div_eq_of_lt (by omega)]
    · have he : l.length - s + s - 1 = l.length - 1 := by omega
      rw [he]
  unfold slicesBy
  rw [hceil, hceil2, List.range_succ_eq_map, List.map_cons, List.map_map]
  congr 1
  · simp
  · have harg : ((fun k => (l.drop (k * s)).take s) ∘ Nat.succ)
        = (fun k => ((l.drop s).drop (k * s)).take s) := by
      funext k
      rw [Function.comp_apply, List.drop_drop]
      have hmul : Nat.succ k * s = s + k * s := by
        rw [Nat.succ_eq_add_one, Nat.add_mul, Nat.one_mul, Nat.add_comm]
      rw [hmul]
    rw [harg]

theorem slicesBy_length {α : Type _} (s : Nat) (l : List α) :
    (slicesBy s l).length = (l.length + s - 1) / s := by
  simp [slicesBy]

theorem ceil_div_mul_ge {s : Nat} (hs : 0 < s) (n : Nat) :
    n ≤ ((n + s - 1) / s) * s := by
  obtain ⟨m, rfl⟩ : ∃ m, s = m + 1 := ⟨s - 1, by omega⟩
  have h1 := Nat.div_add_mod (n + (m + 1) - 1) (m + 1)
  have h2 : (n + (m + 1) - 1) % (m + 1) < m + 1 := Nat.mod_lt _ (by omega)
  set q := (n + (m + 1) - 1) / (m + 1) with hq
  set r := (n + (m + 1) - 1) % (m + 1) with hr
  have h3 : (m + 1) * q + r = n + m := by omega
  have h4 : q * (m + 1) = (m + 1) * q := by ring
  rw [h4]
  linarith

theorem slicesBy_getD {α : Type _} {s : Nat} (hs : 0 < s) (l : List α)
    (i : Nat) : (slicesBy s l).getD i [] = (l.drop (i * s)).take s := by
  unfold slicesBy
  rw [List.getD_eq_getElem?_getD, List.getElem?_map]
  by_cases h : i < (l.length + s - 1) / s
  · rw [List.getElem?_range h]
    rfl
  · push_neg at h
    rw [List.getElem?_eq_none (by simpa using h)]
    have h1 : l.length ≤ i * s :=
      le_trans (ceil_div_mul_ge hs l.length) (Nat.mul_le_mul_right _ h)
    rw [List.drop_eq_nil_iff.mpr h1]
    simp

theorem slicesBy_flatten {α : Type _} {s : Nat} (hs : 0 < s) (l : List α) :
    (slicesBy s l).flatten = l := by
  suffices h : ∀ (n : Nat) (l : List α), l.length ≤ n →
      (slicesBy s l).flatten = l by
    exact h l.length l le_rfl
  intro n
  induction n with
  | zero =>
      intro l hl
      have hnil : l = [] := by
        cases l
        · rfl
        · simp at hl
      rw [hnil, slicesBy_nil]
      rfl
  | succ n ih =>
      intro l hl
      rcases eq_or_ne l [] with rfl | hne
      · rw [slicesBy_nil]
        rfl
      · have hlen : 1 ≤ l.length := List.length_pos.mpr hne
        rw [slicesBy_cons hs l hne, List.flatten_cons,
          ih (l.drop s) (by rw [List.length_drop]; omega),
          List.take_append_drop]

theorem slicesBy_getD_length_le {α : Type _} {s : Nat} (hs : 0 < s)
    (l : List α) (i : Nat) : ((slicesBy s l).getD i []).length ≤ s := by
  rw [slicesBy_getD hs]
  exact le_trans (List.length_take_le _ _) le_rfl

theorem slicesBy_getD_length_eq {α : Type _} {s : Nat} (hs : 0 < s)
    (l : List α) (i : Nat) (h : i + 1 < (slicesBy s l).length) :
    ((slicesBy s l).getD i []).length = s := by
  rw [slicesBy_getD hs, List.length_take, List.length_drop]
  rw [slicesBy_length] at h
  have hc : i + 2 ≤ (l.length + s - 1) / s := by omega
  have h2 : (i + 2) * s ≤ l.length + s - 1 := (Nat.le_div_iff_mul_le hs).mp hc
  have h3 : (i + 2) * s = i * s + 2 * s := by ring
  rw [h3] at h2
  set A := i * s with hA
  clear hA hc h3 h
  omega

/-- C1: the fragments of `split_long_text`, concatenated in order,
reconstruct the original text exactly; the fragment at position i is the
slice of the text starting at i * MAX_CELL_LENGTH, of length at most
MAX_CELL_LENGTH (32767) - so the fragments are non overlapping, left to
right slices. -/
theorem C1_split_long_text_lossless (text : List Char) :
    (split_long_text text).flatten = text ∧
    (∀ i : Nat, ((split_long_text text).getD i []).length ≤ MAX_CELL_LENGTH) ∧
    (∀ i : Nat, (split_long_text text).getD i [] =
      (text.drop (i * MAX_CELL_LENGTH)).take MAX_CELL_LENGTH) := by
  have hs : 0 < MAX_CELL_LENGTH := by norm_num [MAX_CELL_LENGTH]
  exact ⟨slicesBy_flatten hs text,
    fun i => slicesBy_getD_length_le hs text i,
    fun i => slicesBy_getD hs text i⟩

theorem flatten_map_map {a b : Type _} (f : a → b) (L : List (List a)) :
    (L.map (List.map f)).flatten = L.flatten.map f := by
  induction L with
  | nil => rfl
  | cons x t ih =>
      rw [List.map_cons, List.flatten_cons, List.flatten_cons,
        List.map_append, ih]

theorem replace_text_nil (replacements : List (List Char × List Char)) :
    replace_text replacements [] = [] := rfl

/-- C2: the chunked run of the pool over any non empty article list is
exactly the sequential map of the per record sanitize then replace
transformation: same length, and the result at every position i is
`replace_text` of the i-th input record.  The reassembly is by chunk
submission order, so the model, which is deterministic, is the whole
story for output order. -/
theorem C2_runner_equals_map (replacements : List (List Char × List Char))
    (articles : List (List Char)) (h : articles ≠ []) :
    run_chunks replacements articles
      = articles.map (replace_text replacements) ∧
    (run_chunks replacements articles).length = articles.length ∧
    (∀ i : Nat, (run_chunks replacements articles).getD i [] =
      replace_text replacements (articles.getD i [])) := by
  have hs : 0 < chunk_size articles.length :=
    lt_of_lt_of_le (by norm_num) (le_max_left 1000 (articles.length / 4))
  have hmain : run_chunks replacements articles
      = articles.map (replace_text replacements) := by
    calc run_chunks replacements articles
        = ((article_chunks articles).map
            (List.map (replace_text replacements))).flatten := rfl
      _ = (article_chunks articles).flatten.map (replace_text replacements) :=
          flatten_map_map _ _
      _ = articles.map (replace_text replacements) := by
          rw [show (article_chunks articles).flatten = articles from
            slicesBy_flatten hs articles]
  refine ⟨hmain, by rw [hmain]; simp, ?_⟩
  intro i
  rw [hmain, List.getD_eq_getElem?_getD, List.getD_eq_getElem?_getD,
    List.getElem?_map]
  cases harr : articles[i]? with
  | none => simp [replace_text_nil]
  | some a => simp

/-- C3 as stated is false at 2500 records: the chunk size is
max(1000, 2500 / 4) = 1000, so 2500 records split into three chunks,
not two. -/
theorem C3_counterexample :
    (article_chunks (List.replicate 2500 "a".data)).length ≠ 2 := by
  have h : (article_chunks (List.replicate 2500 "a".data)).length = 3 := by
    unfold article_chunks
    rw [slicesBy_length]
    simp only [List.length_replicate]
    decide
  omega

/-- C3 amended: for every record count the records are partitioned into
contiguous chunks of size max(1000, N / 4), every chunk but the last
full, only the last possibly smaller; for N = 2500 this yields exactly
three chunks, of sizes 1000, 1000 and 500. -/
theorem C3_chunk_partition :
    (∀ l : List (List Char),
      (article_chunks l).flatten = l ∧
      (∀ i : Nat, ((article_chunks l).getD i []).length ≤ chunk_size l.length) ∧
      (∀ i : Nat, i + 1 < (article_chunks l).length →
        ((article_chunks l).getD i []).length = chunk_size l.length)) ∧
    (∀ l : List (List Char), l.length = 2500 →
      (article_chunks l).map List.length = [1000, 1000, 500]) := by
  constructor
  · intro l
    have hs : 0 < chunk_size l.length :=
      lt_of_lt_of_le (by norm_num) (le_max_left 1000 (l.length / 4))
    exact ⟨slicesBy_flatten hs l,
      fun i => slicesBy_getD_length_le hs l i,
      fun i hi => slicesBy_getD_length_eq hs l i hi⟩
  · intro l hl
    have hcs : chunk_size l.length = 1000 := by rw [hl]; rfl
    have h1 : l ≠ [] := by
      intro hnil
      rw [hnil] at hl
      simp at hl
    have hd1 : l.drop 1000 ≠ [] := by
      rw [← List.length_pos, List.length_drop, hl]
      norm_num
    have hd2 : l.drop (1000 + 1000) ≠ [] := by
      rw [← List.length_pos, List.length_drop, hl]
      norm_num
    have hd3 : l.drop (1000 + 1000 + 1000) = [] := by
      rw [List.drop_eq_nil_iff, hl]
      norm_num
    unfold article_chunks
    rw [hcs, slicesBy_cons (by norm_num) l h1,
      slicesBy_cons (by norm_num) _ hd1, List.drop_drop,
      slicesBy_cons (by norm_num) _ hd2, List.drop_drop, hd3, slicesBy_nil]
    simp [List.length_take, List.length_drop, hl]

/-- C2 witness at a concrete non empty input. -/
theorem C2_witness :
    (["hi".data] ≠ ([] : List (List Char))) ∧
    (run_chunks [] ["hi".data] = ["hi".data].map (replace_text []) ∧
      (run_chunks [] ["hi".data]).length = ["hi".data].length ∧
      (∀ i : Nat, (run_chunks [] ["hi".data]).getD i [] =
        replace_text [] (["hi".data].getD i []))) :=
  ⟨by decide, C2_runner_equals_map [] ["hi".data] (by decide)⟩

/-- C3 witness: the amended chunk count at a concrete 2500 record
list. -/
theorem C3_witness :
    (List.replicate 2500 "a".data).length = 2500 ∧
    (article_chunks (List.replicate 2500 "a".data)).map List.length
      = [1000, 1000, 500] :=
  ⟨by rw [List.length_replicate], C3_chunk_partition.2 (List.replicate 2500 "a".data) (by rw [List.length_replicate])⟩

/-- C4: compiled from the rows cat to dog and category to group, the
table is sorted longest key first, and the whole engine maps the input
category to group, not to dog plus egory. -/
theorem C4_longest_key_first :
    (load_replacements sheetCatCategory).2 =
      [("category".data, "group".data), ("cat".data, "dog".data)] ∧
    replace_text (load_replacements sheetCatCategory).2 "category".data
      = "group".data ∧
    replace_text (load_replacements sheetCatCategory).2 "category".data
      ≠ "dogegory".data := by
  refine ⟨by decide, by decide, by decide⟩

/-- C5: with the single rule cat to dog, the key never matches inside a
longer word (concatenate is unchanged), while a word bounded occurrence
is replaced, case insensitively. -/
theorem C5_whole_word_case_insensitive :
    replace_text (load_replacements sheetCatDog).2 "concatenate".data
      = "concatenate".data ∧
    replace_text (load_replacements sheetCatDog).2 "the cat sat".data
      = "the dog sat".data ∧
    replace_text (load_replacements sheetCatDog).2 "the CAT sat".data
      = "the dog sat".data := by
  refine ⟨by decide, by decide, by decide⟩

/-- C6 as stated is false: with a sheet that has a Replace From column
but no Replace To column, the builder does report a configuration error
and loads zero rules, yet the pipeline still proceeds: the GUI callback
runs `process_articles` unconditionally and produces a full output
table for the records. -/
theorem C6_counterexample :
    (load_replacements sheetFromOnly).1 = true ∧
    (load_replacements sheetFromOnly).2 = [] ∧
    start_replacer sheetFromOnly ["hello".data]
      = some (["Article Part 1".data], [[some "hello".data]]) := by
  refine ⟨by decide, by decide, by decide⟩

/-- C6 amended: when the sheet lacks a Replace From column or a Replace
To column, the builder reports a configuration error and loads zero
rules, but the pipeline is not stopped: the run proceeds and processes
the records with the empty rule table. -/
theorem C6_config_error_still_proceeds (s : Sheet)
    (articles : List (List Char))
    (h : ((fromColsOf s).isEmpty || (toColsOf s).isEmpty) = true) :
    load_replacements s = (true, []) ∧
    start_replacer s articles = process_articles [] articles := by
  have h1 : load_replacements s = (true, []) := by
    unfold load_replacements
    simp [h]
  exact ⟨h1, by unfold start_replacer; rw [h1]⟩

/-- C6 witness at a concrete sheet and article list. -/
theorem C6_witness :
    (((fromColsOf sheetFromOnly).isEmpty
        || (toColsOf sheetFromOnly).isEmpty) = true) ∧
    (load_replacements sheetFromOnly = (true, []) ∧
      start_replacer sheetFromOnly ["x".data]
        = process_articles [] ["x".data]) :=
  ⟨by decide, C6_config_error_still_proceeds sheetFromOnly ["x".data] (by decide)⟩

/-- C7 as stated is false for `FastReplacer.load_replacements`: a row
whose From cell is whitespace only is empty after trimming, yet it
contributes a rule, because this builder tests the untrimmed cell. -/
theorem C7_counterexample :
    pyStrip "  ".data = [] ∧
    (load_replacements sheetWhitespaceKey).2
      = [(reEscape "  ".data, "x".data)] := by
  refine ⟨by decide, by decide⟩

/-- C7 amended: a row contributes a rule if and only if both cells are
present and both are non empty, where `FastReplacer.load_replacements`
tests the raw cells (no trimming, so whitespace only cells do
contribute) while `ArticleReplacer.prepare_replacements` tests the
cells after trimming; rows failing the test are skipped without error
and the build continues with the remaining rows. -/
theorem C7_row_contribution :
    (∀ fromCell toCell : Option (List Char),
      ((ruleOfRow fromCell toCell).isSome = true ↔
        ∃ k v, fromCell = some k ∧ toCell = some v ∧ k ≠ [] ∧ v ≠ [])) ∧
    (∀ fromCell toCell : Option (List Char),
      ((ruleOfRowStripped fromCell toCell).isSome = true ↔
        ∃ k v, fromCell = some k ∧ toCell = some v ∧
          pyStrip k ≠ [] ∧ pyStrip v ≠ [])) ∧
    (load_replacements sheetSkipRow).2 = [(reEscape "a".data, "b".data)] ∧
    prepare_replacements sheetSkipRow = [("b".data, "a".data)] := by
  refine ⟨?_, ?_, by decide, by decide⟩
  · intro fromCell toCell
    cases fromCell with
    | none => simp [ruleOfRow]
    | some k =>
        cases toCell with
        | none => simp [ruleOfRow]
        | some v =>
            by_cases hk : k = [] <;> by_cases hv : v = [] <;>
              simp [ruleOfRow, hk, hv]
  · intro fromCell toCell
    cases fromCell with
    | none => simp [ruleOfRowStripped]
    | some k =>
        cases toCell with
        | none => simp [ruleOfRowStripped]
        | some v =>
            by_cases hk : pyStrip k = [] <;> by_cases hv : pyStrip v = [] <;>
              simp [ruleOfRowStripped, hk, hv]

/-- C9: the sanitizer maps a non string input, and any input that is
blank (empty after stripping), to the empty string. -/
theorem C9_sanitize_blank :
    sanitize_text none = [] ∧
    sanitize_text (some "".data) = [] ∧
    sanitize_text (some "  ".data) = [] ∧
    (∀ t : List Char, pyStrip t = [] → sanitize_text (some t) = []) := by
  refine ⟨rfl, by decide, by decide, ?_⟩
  intro t ht
  simp [sanitize_text, ht]

/-- C9 witness: the blank input clause at a concrete input. -/
theorem C9_witness :
    pyStrip "\t ".data = [] ∧ sanitize_text (some "\t ".data) = [] :=
  ⟨by decide, C9_sanitize_blank.2.2.2 "\t ".data (by decide)⟩

theorem foldl_max_init_le (l : List Nat) (a : Nat) : a ≤ l.foldl max a := by
  induction l generalizing a with
  | nil => exact le_rfl
  | cons b t ih => exact le_trans (le_max_left a b) (ih (max a b))

theorem le_foldl_max {x : Nat} (l : List Nat) (a : Nat) (hx : x ∈ l) :
    x ≤ l.foldl max a := by
  induction l generalizing a with
  | nil => cases hx
  | cons b t ih =>
      rcases List.mem_cons.mp hx with rfl | hmem
      · exact le_trans (le_max_right a x) (foldl_max_init_le t _)
      · exact ih _ hmem

theorem foldl_max_choice (l : List Nat) (a : Nat) :
    l.foldl max a = a ∨ l.foldl max a ∈ l := by
  induction l generalizing a with
  | nil => exact Or.inl rfl
  | cons b t ih =>
      rcases ih (max a b) with h | h
      · rcases max_choice a b with h2 | h2
        · exact Or.inl (by rw [List.foldl_cons, h, h2])
        · refine Or.inr ?_
          rw [List.foldl_cons, h, h2]
          exact List.mem_cons_self _ _
      · exact Or.inr (List.mem_cons_of_mem _ h)

/-- C8: for a non empty article list the output table has one row per
article; the column names are Article Part 1 through Article Part K
where K is the maximum fragment count over all rows (attained by some
row); each row is its fragment list padded on the right with missing
values up to length K. -/
theorem C8_output_table_shape (arts : List (List Char)) (h : arts ≠ []) :
    ∃ names rows, output_table arts = some (names, rows) ∧
      rows.length = arts.length ∧
      names = (List.range (max_fragment_count arts)).map
        (fun i => "Article Part ".data ++ (Nat.repr (i + 1)).data) ∧
      (∀ a ∈ arts, (split_long_text a).length ≤ max_fragment_count arts) ∧
      (∃ a ∈ arts, (split_long_text a).length = max_fragment_count arts) ∧
      rows = arts.map (fun a =>
        (split_long_text a).map some ++
          List.replicate (max_fragment_count arts - (split_long_text a).length)
            none) ∧
      (∀ row ∈ rows, row.length = max_fragment_count arts) := by
  obtain ⟨a0, rest, rfl⟩ : ∃ a0 rest, arts = a0 :: rest := by
    cases arts with
    | nil => exact absurd rfl h
    | cons a0 rest => exact ⟨a0, rest, rfl⟩
  have hb : ∀ a ∈ a0 :: rest,
      (split_long_text a).length ≤ max_fragment_count (a0 :: rest) := by
    intro a ha
    exact le_foldl_max _ 0
      (List.mem_map_of_mem List.length
        (List.mem_map_of_mem split_long_text ha))
  have hattain : ∃ a ∈ a0 :: rest,
      (split_long_text a).length = max_fragment_count (a0 :: rest) := by
    rcases foldl_max_choice
        (((a0 :: rest).map split_long_text).map List.length) 0 with h0 | hmem
    · refine ⟨a0, List.mem_cons_self _ _, ?_⟩
      have h1 := hb a0 (List.mem_cons_self _ _)
      have h2 : max_fragment_count (a0 :: rest) = 0 := h0
      omega
    · obtain ⟨la, hla, hlen⟩ := List.mem_map.mp hmem
      obtain ⟨a, ha, rfl⟩ := List.mem_map.mp hla
      exact ⟨a, ha, hlen⟩
  refine ⟨_, _, rfl, by simp, rfl, hb, hattain, rfl, ?_⟩
  intro row hrow
  obtain ⟨a, ha, rfl⟩ := List.mem_map.mp hrow
  have h1 := hb a ha
  simp only [List.length_append, List.length_map, List.length_replicate]
  omega

/-- C8 witness at a concrete two article list, one of the articles
empty so that its row is pure padding. -/
theorem C8_witness :
    (["ab".data, ([] : List Char)] ≠ []) ∧
    (∃ names rows,
      output_table ["ab".data, ([] : List Char)] = some (names, rows) ∧
      rows.length = ["ab".data, ([] : List Char)].length ∧
      names = (List.range (max_fragment_count ["ab".data, ([] : List Char)])).map
        (fun i => "Article Part ".data ++ (Nat.repr (i + 1)).data) ∧
      (∀ a ∈ ["ab".data, ([] : List Char)], (split_long_text a).length ≤
        max_fragment_count ["ab".data, ([] : List Char)]) ∧
      (∃ a ∈ ["ab".data, ([] : List Char)], (split_long_text a).length =
        max_fragment_count ["ab".data, ([] : List Char)]) ∧
      rows = ["ab".data, ([] : List Char)].map (fun a =>
        (split_long_text a).map some ++
          List.replicate (max_fragment_count ["ab".data, ([] : List Char)]
            - (split_long_text a).length) none) ∧
      (∀ row ∈ rows, row.length =
        max_fragment_count ["ab".data, ([] : List Char)])) :=
  ⟨by decide, C8_output_table_shape ["ab".data, ([] : List Char)] (by decide)⟩

theorem regexUnescape_reEscape (raw : List Char) :
    regexUnescape (reEscape raw) = raw := by
  induction raw with
  | nil => rfl
  | cons c t ih =>
      by_cases hc : c ∈ reSpecials
      · have h1 : reEscape (c :: t) = '\\' :: c :: reEscape t := by
          simp [reEscape, hc]
        rw [h1]
        have h2 : regexUnescape ('\\' :: c :: reEscape t)
            = c :: regexUnescape (reEscape t) := by
          rw [regexUnescape.eq_def]
          simp
        rw [h2, ih]
      · have hbs : c ≠ '\\' :=
          fun hEq => hc (hEq ▸ (by decide : ('\\' : Char) ∈ reSpecials))
        have h1 : reEscape (c :: t) = c :: reEscape t := by
          simp [reEscape, hc]
        rw [h1]
        have h2 : regexUnescape (c :: reEscape t)
            = c :: regexUnescape (reEscape t) := by
          rw [regexUnescape.eq_def]
          simp [hbs]
        rw [h2, ih]

/-- C10: every stored key is the regex escape of the raw cell, and the
escaped pattern denotes exactly the literal raw key (unescaping the
escape is the identity), so keys with metacharacters match as literal
text within word boundaries: the key c.t compiled as the pattern
backslash protected c.t replaces the text c.t but leaves cat alone.
The longest first sort of line 48 measures the escaped key: the raw key
a.. is shorter than abcd, but its escape is longer, so it sorts
first. -/
theorem C10_keys_escaped_literal :
    (∀ raw : List Char, regexUnescape (reEscape raw) = raw) ∧
    (load_replacements sheetDotKey).2 = [("c\\.t".data, "X".data)] ∧
    replace_text (load_replacements sheetDotKey).2 "c.t".data = "X".data ∧
    replace_text (load_replacements sheetDotKey).2 "cat".data = "cat".data ∧
    (load_replacements sheetEscLen).2.map Prod.fst
      = ["a\\.\\.".data, "abcd".data] ∧
    "a..".data.length < "abcd".data.length ∧
    (reEscape "abcd".data).length < (reEscape "a..".data).length :=
  ⟨regexUnescape_reEscape, by decide, by decide, by decide, by decide,
    by decide, by decide⟩


end MassReplace
